import Mathlib

/-! Shallow embedding of the lost-and-found person-detection pipeline
(`src/app.py`, class `PersonDetector`, together with the `/api/detect`
endpoint flow that drives it).

Modelling choices:
* A detected face in a frame is represented by its embedding distance to the
  reference encoding (a rational number); the external face_recognition
  capability is assumed deterministic, so a raw video is a list of frames,
  each frame being the list of face distances detected in it.
* `cv2.VideoCapture` / `cv2.VideoWriter` are represented by their observable
  outcomes: whether the capture opens, and whether each codec attempt
  (`avc1`, then `mp4v`) yields an opened writer.  Frames reach the output
  video only when the writer in use is opened (an unopened `cv2.VideoWriter`
  silently drops `write` calls).
* Side effects that the claims talk about (frames written to the output
  video, snapshot images written with `cv2.imwrite`, whether video I/O was
  attempted) are recorded in an explicit trace.
-/

namespace LostAndFound

/-- Model of Python `str.replace(old, new)` for a non-empty pattern `old`:
replaces every non-overlapping occurrence, scanning left to right.  The
first argument is fuel; `strReplace` below supplies `s.length`, which is
enough because every step consumes at least one character of `s`. -/
def strReplaceAux (old new : List Char) : Nat → List Char → List Char
  | 0, s => s
  | _ + 1, [] => []
  | fuel + 1, c :: rest =>
    if !old.isEmpty && old.isPrefixOf (c :: rest) then
      new ++ strReplaceAux old new fuel ((c :: rest).drop old.length)
    else
      c :: strReplaceAux old new fuel rest

/-- Python `s.replace(old, new)` (non-empty `old`). -/
def strReplace (s old new : List Char) : List Char :=
  strReplaceAux old new s.length s

/-- Whether `pat` occurs as a contiguous substring of the second list. -/
def occursIn (pat : List Char) : List Char → Bool
  | [] => pat.isEmpty
  | c :: rest => pat.isPrefixOf (c :: rest) || occursIn pat rest

/-- The snapshot path computed at `src/app.py:150`:
`output_video_path.replace('.mp4', '_detection_frame.jpg')`. -/
def snapshot_path (output_video_path : String) : String :=
  String.mk (strReplace output_video_path.toList ".mp4".toList "_detection_frame.jpg".toList)

/-- Match test of the face loop, i.e.
`face_recognition.compare_faces([ref], face, tolerance)[0]`
(`src/app.py:130`), with the face represented by its embedding distance to
the reference encoding: the library's documented rule is a match iff the
distance is at most the tolerance. -/
def compare_faces (tolerance distance : ℚ) : Bool :=
  decide (distance ≤ tolerance)

/-- Embedding of `load_person_encoding` (`src/app.py:47`): fails when the reference image
contains no face, otherwise keeps the first face encoding found. -/
def load_person_encoding {α : Type} (face_encodings : List α) : Except String α :=
  match face_encodings with
  | [] => Except.error "No face found in the person's image. Please use an image with a clear face."
  | e :: _ => Except.ok e

/-- The mutable per-run detection state of `detect_person_in_video`
(`src/app.py:103`-`106`), plus the record of `cv2.imwrite` snapshot calls. -/
structure AggState where
  detected_frames : ℕ
  detection_timestamps : List ℚ
  detection_frame_path : Option String
  snapshotWrites : List (String × ℕ)
deriving Repr, DecidableEq

/-- Body of the per-face loop of `detect_person_in_video`
(`src/app.py:128`-`154`) for one face of embedding distance `d` in the
sampled frame of index `fc`. -/
def stepFace (out : String) (tol : ℚ) (fps fc : ℕ) (st : AggState) (d : ℚ) : AggState :=
  if compare_faces tol d then
    let timestamp : ℚ := (fc : ℚ) / (fps : ℚ)
    let st1 : AggState :=
      { st with detected_frames := st.detected_frames + 1,
                detection_timestamps := st.detection_timestamps ++ [timestamp] }
    match st1.detection_frame_path with
    | none =>
        { st1 with detection_frame_path := some (snapshot_path out),
                   snapshotWrites := st1.snapshotWrites ++ [(snapshot_path out, fc)] }
    | some _ => st1
  else st

/-- The per-face loop of `detect_person_in_video` over all faces of one
sampled frame. -/
def scanFaces (out : String) (tol : ℚ) (fps fc : ℕ) : List ℚ → AggState → AggState
  | [], st => st
  | d :: ds, st => scanFaces out tol fps fc ds (stepFace out tol fps fc st d)

/-- Full loop state: the aggregation state, the raw-frame counter
`frame_count`, and the indices of frames that actually reached the output
video writer. -/
structure ScanState where
  agg : AggState
  frame_count : ℕ
  written : List ℕ
deriving Repr, DecidableEq

/-- Initial aggregation state (`src/app.py:103`-`106`). -/
def initAgg : AggState := { detected_frames := 0, detection_timestamps := [],
                            detection_frame_path := none, snapshotWrites := [] }

/-- Initial loop state. -/
def initScan : ScanState := { agg := initAgg, frame_count := 0, written := [] }

/-- The main `while` loop of `detect_person_in_video`
(`src/app.py:111`-`164`): every raw frame increments `frame_count`; a frame
is processed (matched, annotated, written) iff `frame_count % frame_skip == 0`;
`out.write` lands a frame in the output video only when the writer `w` is
opened. -/
def scanFrames (out : String) (tol : ℚ) (fps k : ℕ) (w : Bool) :
    List (List ℚ) → ScanState → ScanState
  | [], st => st
  | f :: rest, st =>
    if st.frame_count % k == 0 then
      scanFrames out tol fps k w rest
        { agg := scanFaces out tol fps st.frame_count f st.agg,
          frame_count := st.frame_count + 1,
          written := if w then st.written ++ [st.frame_count] else st.written }
    else
      scanFrames out tol fps k w rest { st with frame_count := st.frame_count + 1 }

/-- Codec fallback of `detect_person_in_video` (`src/app.py:91`-`101`):
`avc1` is attempted first; only when it does not yield an opened writer is
`mp4v` attempted.  Returns the attempted codec list (in order) and whether
the writer finally in use is opened; when both attempts fail the code keeps
the unopened `mp4v` writer and continues. -/
def openWriter (avc1Opens mp4vOpens : Bool) : List String × Bool :=
  if avc1Opens then (["avc1"], true) else (["avc1", "mp4v"], mp4vOpens)

/-- The externally determined inputs of one `detect_person_in_video` run. -/
structure DetectInput where
  videoOpens : Bool
  fps : ℕ
  frames : List (List ℚ)
  avc1Opens : Bool
  mp4vOpens : Bool
deriving Repr, DecidableEq

/-- The result dictionary of `detect_person_in_video` (`src/app.py:172`-`178`). -/
structure Summary where
  total_frames : ℕ
  detected_frames : ℕ
  detection_timestamps : List ℚ
  output_video_path : String
  detection_frame_path : Option String
deriving Repr, DecidableEq

/-- Observable side effects of one run. -/
structure RunTrace where
  videoIOAttempted : Bool
  writerAttempts : List String
  written : List ℕ
  snapshotWrites : List (String × ℕ)
deriving Repr, DecidableEq

/-- Trace of a run that performed no video I/O and produced no artifact. -/
def emptyTrace : RunTrace :=
  { videoIOAttempted := false, writerAttempts := [], written := [], snapshotWrites := [] }

/-- The scanning loop of one run, started from the initial state. -/
def runScan (inp : DetectInput) (out : String) (tol : ℚ) (k : ℕ) : ScanState :=
  scanFrames out tol inp.fps k (openWriter inp.avc1Opens inp.mp4vOpens).2 inp.frames initScan

/-- Embedding of `detect_person_in_video` (`src/app.py:66`-`178`): fails when no person
encoding is loaded or the video does not open; otherwise opens the writer
with codec fallback, scans all raw frames and returns the summary, together
with the trace of observable side effects. -/
def detect_person_in_video {α : Type} (person_encoding : Option α) (inp : DetectInput)
    (output_video_path : String) (tolerance : ℚ) (frame_skip : ℕ) :
    Except String Summary × RunTrace :=
  match person_encoding with
  | none => (Except.error "Person encoding not loaded.", emptyTrace)
  | some _ =>
    if inp.videoOpens then
      let final := runScan inp output_video_path tolerance frame_skip
      (Except.ok
        { total_frames := final.frame_count,
          detected_frames := final.agg.detected_frames,
          detection_timestamps := final.agg.detection_timestamps,
          output_video_path := output_video_path,
          detection_frame_path := final.agg.detection_frame_path },
       { videoIOAttempted := true,
         writerAttempts := (openWriter inp.avc1Opens inp.mp4vOpens).1,
         written := final.written,
         snapshotWrites := final.agg.snapshotWrites })
    else (Except.error "Could not open video file.",
          { emptyTrace with videoIOAttempted := true })

/-- The `/api/detect` endpoint flow after parameter validation
(`src/app.py:240`-`258`): load the reference encoding; on failure return the
error before any video I/O; otherwise run the detection. -/
def detect_endpoint {α : Type} (referenceEncodings : List α) (inp : DetectInput)
    (output_video_path : String) (tolerance : ℚ) (frame_skip : ℕ) :
    Except String Summary × RunTrace :=
  match load_person_encoding referenceEncodings with
  | Except.error m => (Except.error m, emptyTrace)
  | Except.ok e => detect_person_in_video (some e) inp output_video_path tolerance frame_skip

/-- Specification helper: the index of the first sampled frame (counting
raw frames from `fc`) that contains at least one matching face. -/
def firstMatchedSampledFrame (tol : ℚ) (k : ℕ) : ℕ → List (List ℚ) → Option ℕ
  | _, [] => none
  | fc, f :: rest =>
    if fc % k == 0 && f.any (fun d => compare_faces tol d) then some fc
    else firstMatchedSampledFrame tol k (fc + 1) rest

/-- Specification helper: the detection timestamps emitted while scanning
`frames` with the raw-frame counter starting at `fc` (one entry per matching
face of each sampled frame, in processing order). -/
def timestampsSpec (tol : ℚ) (fps k : ℕ) : ℕ → List (List ℚ) → List ℚ
  | _, [] => []
  | fc, f :: rest =>
    (if fc % k == 0 then
        List.replicate (f.countP (fun d => compare_faces tol d)) ((fc : ℚ) / (fps : ℚ))
      else []) ++ timestampsSpec tol fps k (fc + 1) rest

/-! Helper lemmas -/

theorem strReplaceAux_of_occursIn_eq_false (old new : List Char) :
    ∀ (fuel : ℕ) (s : List Char), occursIn old s = false →
      strReplaceAux old new fuel s = s := by
  intro fuel
  induction fuel with
  | zero => intro s _; rfl
  | succ fuel ih =>
    intro s h
    cases s with
    | nil => rfl
    | cons c rest =>
      have h2 : old.isPrefixOf (c :: rest) = false ∧ occursIn old rest = false := by
        simpa [occursIn] using h
      simp [strReplaceAux, h2.1, ih rest h2.2]

theorem strReplace_of_occursIn_eq_false (s old new : List Char)
    (h : occursIn old s = false) : strReplace s old new = s :=
  strReplaceAux_of_occursIn_eq_false old new s.length s h

theorem snapshot_path_of_no_mp4 (s : String)
    (h : occursIn ".mp4".toList s.toList = false) : snapshot_path s = s := by
  unfold snapshot_path
  rw [strReplace_of_occursIn_eq_false _ _ _ h]
  cases s
  rfl

theorem ceil_step (n k : ℕ) (hk : 0 < k) :
    (n + k) / k = (n + k - 1) / k + (if n % k = 0 then 1 else 0) := by
  obtain ⟨q, r, hr, rfl⟩ : ∃ q r, r < k ∧ n = k * q + r :=
    ⟨n / k, n % k, Nat.mod_lt _ hk, by rw [Nat.div_add_mod]⟩
  have hmod : (k * q + r) % k = r := by
    rw [Nat.mul_add_mod]; exact Nat.mod_eq_of_lt hr
  have e0 : k * q + r + k = r + k * (q + 1) := by rw [Nat.mul_succ]; omega
  have lhs : (k * q + r + k) / k = q + 1 := by
    rw [e0, Nat.add_mul_div_left _ _ hk, Nat.div_eq_of_lt hr]; omega
  rcases Nat.eq_zero_or_pos r with hr0 | hr0
  · subst hr0
    have e1 : k * q + 0 + k - 1 = (k - 1) + k * q := by omega
    rw [lhs, hmod, e1, Nat.add_mul_div_left _ _ hk,
      Nat.div_eq_of_lt (by omega : k - 1 < k)]
    simp
  · have e2 : k * q + r + k - 1 = (r - 1) + k * (q + 1) := by rw [Nat.mul_succ]; omega
    rw [lhs, hmod, e2, Nat.add_mul_div_left _ _ hk,
      Nat.div_eq_of_lt (by omega : r - 1 < k)]
    have : ¬ r = 0 := by omega
    simp [this]

theorem length_filter_range_mod (k : ℕ) (hk : 1 ≤ k) :
    ∀ n : ℕ, ((List.range n).filter (fun i => i % k == 0)).length = (n + k - 1) / k := by
  intro n
  induction n with
  | zero =>
    have h0 : (k - 1) / k = 0 := Nat.div_eq_of_lt (by omega)
    simp [h0]
  | succ n ih =>
    rw [List.range_succ, List.filter_append, List.length_append, ih]
    have hstep := ceil_step n k (by omega)
    have e : n + 1 + k - 1 = n + k := by omega
    rw [e, hstep]
    by_cases h : n % k = 0 <;> simp [h]

theorem natCast_div_le_div (a b c : ℕ) (h : a ≤ b) :
    (a : ℚ) / (c : ℚ) ≤ (b : ℚ) / (c : ℚ) := by
  rcases Nat.eq_zero_or_pos c with h0 | h0
  · subst h0; simp
  · have hc : (0 : ℚ) < (c : ℚ) := by exact_mod_cast h0
    exact (div_le_div_iff_of_pos_right hc).mpr (by exact_mod_cast h)

/-! Face-level lemmas -/

theorem stepFace_detected (out : String) (tol : ℚ) (fps fc : ℕ) (st : AggState) (d : ℚ) :
    (stepFace out tol fps fc st d).detected_frames =
      st.detected_frames + (if compare_faces tol d then 1 else 0) := by
  by_cases h : compare_faces tol d
  · cases hp : st.detection_frame_path <;> simp [stepFace, h, hp]
  · simp [stepFace, h]

theorem stepFace_timestamps (out : String) (tol : ℚ) (fps fc : ℕ) (st : AggState) (d : ℚ) :
    (stepFace out tol fps fc st d).detection_timestamps =
      st.detection_timestamps ++
        (if compare_faces tol d then [(fc : ℚ) / (fps : ℚ)] else []) := by
  by_cases h : compare_faces tol d
  · cases hp : st.detection_frame_path <;> simp [stepFace, h, hp]
  · simp [stepFace, h]

theorem stepFace_path_some (out : String) (tol : ℚ) (fps fc : ℕ) (st : AggState) (d : ℚ)
    (p : String) (hp : st.detection_frame_path = some p) :
    (stepFace out tol fps fc st d).detection_frame_path = some p ∧
      (stepFace out tol fps fc st d).snapshotWrites = st.snapshotWrites := by
  by_cases h : compare_faces tol d <;> simp [stepFace, h, hp]

theorem stepFace_path_none (out : String) (tol : ℚ) (fps fc : ℕ) (st : AggState) (d : ℚ)
    (hp : st.detection_frame_path = none) :
    (compare_faces tol d = true →
      (stepFace out tol fps fc st d).detection_frame_path = some (snapshot_path out) ∧
      (stepFace out tol fps fc st d).snapshotWrites =
        st.snapshotWrites ++ [(snapshot_path out, fc)]) ∧
    (compare_faces tol d = false →
      (stepFace out tol fps fc st d).detection_frame_path = none ∧
      (stepFace out tol fps fc st d).snapshotWrites = st.snapshotWrites) := by
  constructor
  · intro h; simp [stepFace, h, hp]
  · intro h; simp [stepFace, h, hp]

theorem scanFaces_detected (out : String) (tol : ℚ) (fps fc : ℕ) :
    ∀ (ds : List ℚ) (st : AggState),
      (scanFaces out tol fps fc ds st).detected_frames =
        st.detected_frames + ds.countP (fun d => compare_faces tol d) := by
  intro ds
  induction ds with
  | nil => intro st; simp [scanFaces]
  | cons d ds ih =>
    intro st
    rw [scanFaces, ih, stepFace_detected, List.countP_cons]
    by_cases h : compare_faces tol d
    · simp [h]; omega
    · simp [h]

theorem scanFaces_timestamps (out : String) (tol : ℚ) (fps fc : ℕ) :
    ∀ (ds : List ℚ) (st : AggState),
      (scanFaces out tol fps fc ds st).detection_timestamps =
        st.detection_timestamps ++
          List.replicate (ds.countP (fun d => compare_faces tol d)) ((fc : ℚ) / (fps : ℚ)) := by
  intro ds
  induction ds with
  | nil => intro st; simp [scanFaces]
  | cons d ds ih =>
    intro st
    rw [scanFaces, ih, stepFace_timestamps, List.countP_cons]
    by_cases h : compare_faces tol d
    · simp [h, Nat.add_comm, List.replicate_succ]
    · simp [h]

theorem scanFaces_path_some (out : String) (tol : ℚ) (fps fc : ℕ) :
    ∀ (ds : List ℚ) (st : AggState) (p : String),
      st.detection_frame_path = some p →
        (scanFaces out tol fps fc ds st).detection_frame_path = some p ∧
        (scanFaces out tol fps fc ds st).snapshotWrites = st.snapshotWrites := by
  intro ds
  induction ds with
  | nil => intro st p hp; simp [scanFaces, hp]
  | cons d ds ih =>
    intro st p hp
    have h1 := stepFace_path_some out tol fps fc st d p hp
    rw [scanFaces]
    have h2 := ih (stepFace out tol fps fc st d) p h1.1
    exact ⟨h2.1, h2.2.trans h1.2⟩

theorem scanFaces_path_none (out : String) (tol : ℚ) (fps fc : ℕ) :
    ∀ (ds : List ℚ) (st : AggState),
      st.detection_frame_path = none →
        (if ds.any (fun d => compare_faces tol d) then
          (scanFaces out tol fps fc ds st).detection_frame_path = some (snapshot_path out) ∧
          (scanFaces out tol fps fc ds st).snapshotWrites =
            st.snapshotWrites ++ [(snapshot_path out, fc)]
        else
          (scanFaces out tol fps fc ds st).detection_frame_path = none ∧
          (scanFaces out tol fps fc ds st).snapshotWrites = st.snapshotWrites) := by
  intro ds
  induction ds with
  | nil => intro st hp; simp [scanFaces, hp]
  | cons d ds ih =>
    intro st hp
    by_cases h : compare_faces tol d
    · have h1 := (stepFace_path_none out tol fps fc st d hp).1 h
      have h2 := scanFaces_path_some out tol fps fc ds (stepFace out tol fps fc st d)
        (snapshot_path out) h1.1
      rw [scanFaces] at *
      simp only [List.any_cons, h, Bool.true_or, if_true]
      exact ⟨h2.1, h2.2.trans h1.2⟩
    · have h1 := (stepFace_path_none out tol fps fc st d hp).2 (by simp [h])
      have h2 := ih (stepFace out tol fps fc st d) h1.1
      rw [scanFaces]
      simp only [List.any_cons, h, Bool.false_or]
      by_cases hm : ds.any (fun d => compare_faces tol d)
      · rw [if_pos hm] at h2 ⊢
        exact ⟨h2.1, by rw [h2.2, h1.2]⟩
      · rw [if_neg hm] at h2 ⊢
        exact ⟨h2.1, h2.2.trans h1.2⟩

/-! Frame-level lemmas -/

theorem scanFrames_frame_count (out : String) (tol : ℚ) (fps k : ℕ) (w : Bool) :
    ∀ (frames : List (List ℚ)) (st : ScanState),
      (scanFrames out tol fps k w frames st).frame_count =
        st.frame_count + frames.length := by
  intro frames
  induction frames with
  | nil => intro st; simp [scanFrames]
  | cons f rest ih =>
    intro st
    rw [scanFrames]
    by_cases h : st.frame_count % k == 0
    · rw [if_pos h, ih]; simp; omega
    · rw [if_neg h, ih]; simp; omega

theorem scanFrames_written (out : String) (tol : ℚ) (fps k : ℕ) (w : Bool) :
    ∀ (frames : List (List ℚ)) (st : ScanState),
      (scanFrames out tol fps k w frames st).written =
        st.written ++
          (if w then
            (List.range' st.frame_count frames.length).filter (fun i => i % k == 0)
          else []) := by
  intro frames
  induction frames with
  | nil => intro st; simp [scanFrames]
  | cons f rest ih =>
    intro st
    rw [scanFrames]
    by_cases hs : st.frame_count % k == 0
    · rw [if_pos hs, ih]
      by_cases hw : w <;> simp [hw, hs, List.range'_succ, List.filter_cons]
    · rw [if_neg hs, ih]
      by_cases hw : w <;> simp [hw, hs, List.range'_succ, List.filter_cons]

theorem scanFrames_timestamps (out : String) (tol : ℚ) (fps k : ℕ) (w : Bool) :
    ∀ (frames : List (List ℚ)) (st : ScanState),
      (scanFrames out tol fps k w frames st).agg.detection_timestamps =
        st.agg.detection_timestamps ++ timestampsSpec tol fps k st.frame_count frames := by
  intro frames
  induction frames with
  | nil => intro st; simp [scanFrames, timestampsSpec]
  | cons f rest ih =>
    intro st
    rw [scanFrames, timestampsSpec]
    by_cases hs : st.frame_count % k == 0
    · rw [if_pos hs, ih]; simp [hs, scanFaces_timestamps]
    · rw [if_neg hs, ih]; simp [hs]

theorem scanFrames_detected (out : String) (tol : ℚ) (fps k : ℕ) (w : Bool) :
    ∀ (frames : List (List ℚ)) (st : ScanState),
      (scanFrames out tol fps k w frames st).agg.detected_frames =
        st.agg.detected_frames + (timestampsSpec tol fps k st.frame_count frames).length := by
  intro frames
  induction frames with
  | nil => intro st; simp [scanFrames, timestampsSpec]
  | cons f rest ih =>
    intro st
    rw [scanFrames, timestampsSpec]
    by_cases hs : st.frame_count % k == 0
    · rw [if_pos hs, ih]; simp [hs, scanFaces_detected]; omega
    · rw [if_neg hs, ih]; simp [hs]

theorem scanFrames_path_some (out : String) (tol : ℚ) (fps k : ℕ) (w : Bool) :
    ∀ (frames : List (List ℚ)) (st : ScanState) (p : String),
      st.agg.detection_frame_path = some p →
        (scanFrames out tol fps k w frames st).agg.detection_frame_path = some p ∧
        (scanFrames out tol fps k w frames st).agg.snapshotWrites =
          st.agg.snapshotWrites := by
  intro frames
  induction frames with
  | nil => intro st p hp; simp [scanFrames, hp]
  | cons f rest ih =>
    intro st p hp
    rw [scanFrames]
    by_cases hs : st.frame_count % k == 0
    · rw [if_pos hs]
      have h1 := scanFaces_path_some out tol fps st.frame_count f st.agg p hp
      have h2 := ih { agg := scanFaces out tol fps st.frame_count f st.agg,
                      frame_count := st.frame_count + 1,
                      written := if w then st.written ++ [st.frame_count] else st.written }
        p h1.1
      exact ⟨h2.1, h2.2.trans h1.2⟩
    · rw [if_neg hs]
      exact ih { st with frame_count := st.frame_count + 1 } p hp

theorem scanFrames_path_none (out : String) (tol : ℚ) (fps k : ℕ) (w : Bool) :
    ∀ (frames : List (List ℚ)) (st : ScanState),
      st.agg.detection_frame_path = none →
        (scanFrames out tol fps k w frames st).agg.snapshotWrites =
          st.agg.snapshotWrites ++
            (match firstMatchedSampledFrame tol k st.frame_count frames with
              | none => []
              | some i => [(snapshot_path out, i)]) ∧
        (scanFrames out tol fps k w frames st).agg.detection_frame_path =
          (match firstMatchedSampledFrame tol k st.frame_count frames with
            | none => none
            | some _ => some (snapshot_path out)) := by
  intro frames
  induction frames with
  | nil => intro st hp; simp [scanFrames, firstMatchedSampledFrame, hp]
  | cons f rest ih =>
    intro st hp
    by_cases hs : st.frame_count % k == 0
    · by_cases hm : f.any (fun d => compare_faces tol d)
      · have hfm : firstMatchedSampledFrame tol k st.frame_count (f :: rest) =
            some st.frame_count := by
          simp [firstMatchedSampledFrame, hs, hm]
        have h1 := scanFaces_path_none out tol fps st.frame_count f st.agg hp
        rw [if_pos hm] at h1
        have h2 := scanFrames_path_some out tol fps k w rest
          { agg := scanFaces out tol fps st.frame_count f st.agg,
            frame_count := st.frame_count + 1,
            written := if w then st.written ++ [st.frame_count] else st.written }
          (snapshot_path out) h1.1
        rw [scanFrames, if_pos hs, hfm]
        exact ⟨by rw [h2.2]; exact h1.2, h2.1⟩
      · have hfm : firstMatchedSampledFrame tol k st.frame_count (f :: rest) =
            firstMatchedSampledFrame tol k (st.frame_count + 1) rest := by
          simp [firstMatchedSampledFrame, hs, hm]
        have h1 := scanFaces_path_none out tol fps st.frame_count f st.agg hp
        rw [if_neg (by simp [hm])] at h1
        have h2 := ih
          { agg := scanFaces out tol fps st.frame_count f st.agg,
            frame_count := st.frame_count + 1,
            written := if w then st.written ++ [st.frame_count] else st.written }
          h1.1
        simp only at h2
        rw [scanFrames, if_pos hs, hfm]
        exact ⟨by rw [h2.1, h1.2], h2.2⟩
    · have hfm : firstMatchedSampledFrame tol k st.frame_count (f :: rest) =
          firstMatchedSampledFrame tol k (st.frame_count + 1) rest := by
        simp [firstMatchedSampledFrame, hs]
      rw [scanFrames, if_neg hs, hfm]
      exact ih { st with frame_count := st.frame_count + 1 } hp

/-! Properties of the timestamp specification -/

theorem timestampsSpec_mem (tol : ℚ) (fps k : ℕ) :
    ∀ (frames : List (List ℚ)) (fc : ℕ) (t : ℚ),
      t ∈ timestampsSpec tol fps k fc frames →
        ∃ j, j < frames.length ∧ ((fc + j) % k == 0) = true ∧
          ((frames.getD j []).any (fun d => compare_faces tol d)) = true ∧
          t = ((fc + j : ℕ) : ℚ) / (fps : ℚ) := by
  intro frames
  induction frames with
  | nil => intro fc t ht; simp [timestampsSpec] at ht
  | cons f rest ih =>
    intro fc t ht
    rw [timestampsSpec] at ht
    rcases List.mem_append.mp ht with h | h
    · by_cases hs : fc % k == 0
      · rw [if_pos hs] at h
        obtain ⟨hc, hv⟩ := List.mem_replicate.mp h
        refine ⟨0, by simp, by simpa using hs, ?_, by simpa using hv⟩
        have hpos : 0 < f.countP (fun d => compare_faces tol d) := Nat.pos_of_ne_zero hc
        obtain ⟨a, ha, hpa⟩ := List.countP_pos_iff.mp hpos
        simp only [List.getD_cons_zero]
        exact List.any_eq_true.mpr ⟨a, ha, hpa⟩
      · rw [if_neg hs] at h
        simp at h
    · obtain ⟨j, hj, hmod, hany, hval⟩ := ih (fc + 1) t h
      refine ⟨j + 1, by simpa using hj, ?_, ?_, ?_⟩
      · have e : fc + (j + 1) = fc + 1 + j := by omega
        rw [e]; exact hmod
      · simpa [List.getD_cons_succ] using hany
      · have e : fc + (j + 1) = fc + 1 + j := by omega
        rw [e]; exact hval

theorem timestampsSpec_lower_bound (tol : ℚ) (fps k : ℕ) :
    ∀ (frames : List (List ℚ)) (fc : ℕ) (t : ℚ),
      t ∈ timestampsSpec tol fps k fc frames → ((fc : ℚ) / (fps : ℚ)) ≤ t := by
  intro frames fc t ht
  obtain ⟨j, _, _, _, hval⟩ := timestampsSpec_mem tol fps k frames fc t ht
  rw [hval]
  exact natCast_div_le_div fc (fc + j) fps (by omega)

theorem timestampsSpec_sorted (tol : ℚ) (fps k : ℕ) :
    ∀ (frames : List (List ℚ)) (fc : ℕ),
      List.Sorted (fun a b : ℚ => a ≤ b) (timestampsSpec tol fps k fc frames) := by
  intro frames
  induction frames with
  | nil => intro fc; simp [timestampsSpec]
  | cons f rest ih =>
    intro fc
    rw [timestampsSpec]
    apply List.pairwise_append.mpr
    refine ⟨?_, ih (fc + 1), ?_⟩
    · by_cases hs : fc % k == 0
      · rw [if_pos hs]
        exact List.pairwise_replicate.mpr (Or.inr le_rfl)
      · rw [if_neg hs]; simp
    · intro a ha b hb
      have hb1 : (((fc + 1 : ℕ) : ℚ) / (fps : ℚ)) ≤ b :=
        timestampsSpec_lower_bound tol fps k rest (fc + 1) b hb
      have ha1 : a = ((fc : ℚ) / (fps : ℚ)) := by
        by_cases hs : fc % k == 0
        · rw [if_pos hs] at ha
          exact (List.mem_replicate.mp ha).2
        · rw [if_neg hs] at ha; simp at ha
      rw [ha1]
      exact le_trans (natCast_div_le_div fc (fc + 1) fps (by omega)) hb1

theorem detect_eq_of_open {α : Type} (e : α) (inp : DetectInput) (out : String)
    (tol : ℚ) (k : ℕ) (hv : inp.videoOpens = true) :
    detect_person_in_video (some e) inp out tol k =
      (Except.ok
        { total_frames := (runScan inp out tol k).frame_count,
          detected_frames := (runScan inp out tol k).agg.detected_frames,
          detection_timestamps := (runScan inp out tol k).agg.detection_timestamps,
          output_video_path := out,
          detection_frame_path := (runScan inp out tol k).agg.detection_frame_path },
       { videoIOAttempted := true,
         writerAttempts := (openWriter inp.avc1Opens inp.mp4vOpens).1,
         written := (runScan inp out tol k).written,
         snapshotWrites := (runScan inp out tol k).agg.snapshotWrites }) := by
  simp [detect_person_in_video, hv]

theorem detect_eq_of_closed {α : Type} (e : α) (inp : DetectInput) (out : String)
    (tol : ℚ) (k : ℕ) (hv : inp.videoOpens = false) :
    detect_person_in_video (some e) inp out tol k =
      (Except.error "Could not open video file.",
        { emptyTrace with videoIOAttempted := true }) := by
  simp [detect_person_in_video, hv]

/-! Claims -/

/-- C1: the claim states that at most one `detected_frames` increment and at
most one timestamp are recorded per sampled frame, however many faces match.
The code records one increment and one timestamp per matched face: on a
single sampled frame (index 0) containing two faces both within tolerance,
`detected_frames` ends at 2 and two identical timestamps are appended. -/
theorem C1_per_face_double_count :
    (detect_person_in_video (some 0) ⟨true, 1, [[0, 0]], true, true⟩ "out.mp4"
        (6/10 : ℚ) 1).1 =
      Except.ok { total_frames := 1, detected_frames := 2,
                  detection_timestamps := [0, 0], output_video_path := "out.mp4",
                  detection_frame_path := some "out_detection_frame.jpg" } := by
  norm_num [detect_person_in_video, runScan, scanFrames, scanFaces, stepFace,
    compare_faces, initScan, initAgg, openWriter]
  decide

/-- C2 counterexample: with both codec attempts failing, the run does not
fail with any writer error — it returns a success summary (while writing no
frames to the output video), refuting the claim that initialization failure
of both codecs is fatal. -/
theorem C2_both_codecs_fail_still_succeeds :
    (detect_person_in_video (some 0) ⟨true, 1, [[0]], false, false⟩ "out.mp4"
        (6/10 : ℚ) 5).1 =
      Except.ok { total_frames := 1, detected_frames := 1,
                  detection_timestamps := [0], output_video_path := "out.mp4",
                  detection_frame_path := some "out_detection_frame.jpg" } ∧
    (detect_person_in_video (some 0) ⟨true, 1, [[0]], false, false⟩ "out.mp4"
        (6/10 : ℚ) 5).2.writerAttempts = ["avc1", "mp4v"] ∧
    (detect_person_in_video (some 0) ⟨true, 1, [[0]], false, false⟩ "out.mp4"
        (6/10 : ℚ) 5).2.written = [] := by
  refine ⟨?_, ?_, ?_⟩ <;>
    first
      | (norm_num [detect_person_in_video, runScan, scanFrames, scanFaces, stepFace,
          compare_faces, initScan, initAgg, openWriter]; decide)
      | (norm_num [detect_person_in_video, runScan, scanFrames, scanFaces, stepFace,
          compare_faces, initScan, initAgg, openWriter])

/-- C2 (amended): the primary `avc1` codec is attempted first and the `mp4v`
fallback only on its failure; but when both attempts fail, the run does not
fail fatally: it silently continues with a non-functional writer, writes no
frames to the output video, and still returns a success summary. -/
theorem C2_codec_fallback_behavior (m : Bool) (e : ℕ) (inp : DetectInput)
    (out : String) (tol : ℚ) (k : ℕ) :
    openWriter true m = (["avc1"], true) ∧
    openWriter false m = (["avc1", "mp4v"], m) ∧
    (inp.videoOpens = true → inp.avc1Opens = false → inp.mp4vOpens = false →
      ∃ s, (detect_person_in_video (some e) inp out tol k).1 = Except.ok s ∧
        (detect_person_in_video (some e) inp out tol k).2.written = []) := by
  refine ⟨by simp [openWriter], by simp [openWriter], ?_⟩
  intro hv ha hm
  rw [detect_eq_of_open e inp out tol k hv]
  refine ⟨_, rfl, ?_⟩
  have hwo : (openWriter inp.avc1Opens inp.mp4vOpens).2 = false := by
    simp [openWriter, ha, hm]
  rw [runScan, scanFrames_written, hwo]
  simp [initScan]

/-- C2 witness: concrete instance of the amended fallback behavior. -/
theorem C2_codec_fallback_behavior_witness :
    ∃ s, (detect_person_in_video (some 0) (⟨true, 1, [[0]], false, false⟩ : DetectInput)
            "o.mp4" 1 2).1 = Except.ok s ∧
      (detect_person_in_video (some 0) (⟨true, 1, [[0]], false, false⟩ : DetectInput)
          "o.mp4" 1 2).2.written = [] :=
  (C2_codec_fallback_behavior true 0 ⟨true, 1, [[0]], false, false⟩ "o.mp4" 1 2).2.2
    rfl rfl rfl

/-- C3: for every video of `n` raw frames and `frame_skip ≥ 1` (with the
video opening and at least one codec attempt succeeding), a frame is written
to the output iff its 0-based index is divisible by `frame_skip`, in
processing order; `total_frames` equals `n`; and the output frame count is
`ceil(n / frame_skip)`. -/
theorem C3_sampling (e : ℕ) (inp : DetectInput) (out : String) (tol : ℚ) (k : ℕ)
    (hk : 1 ≤ k) (hv : inp.videoOpens = true)
    (hw : inp.avc1Opens = true ∨ inp.mp4vOpens = true) :
    ∃ s, (detect_person_in_video (some e) inp out tol k).1 = Except.ok s ∧
      s.total_frames = inp.frames.length ∧
      (detect_person_in_video (some e) inp out tol k).2.written =
        (List.range inp.frames.length).filter (fun i => i % k == 0) ∧
      ((detect_person_in_video (some e) inp out tol k).2.written).length =
        (inp.frames.length + k - 1) / k := by
  have hwo : (openWriter inp.avc1Opens inp.mp4vOpens).2 = true := by
    by_cases ha : inp.avc1Opens <;> rcases hw with h | h <;> simp_all [openWriter]
  rw [detect_eq_of_open e inp out tol k hv]
  have hwr : (runScan inp out tol k).written =
      (List.range inp.frames.length).filter (fun i => i % k == 0) := by
    rw [runScan, scanFrames_written, hwo]
    simp [initScan, List.range_eq_range']
  refine ⟨_, rfl, ?_, hwr, ?_⟩
  · rw [runScan, scanFrames_frame_count]; simp [initScan]
  · rw [hwr, length_filter_range_mod k hk]

/-- C3 witness: 3 raw frames with `frame_skip = 2` sample exactly indices
0 and 2 and the output holds `ceil(3/2) = 2` frames. -/
theorem C3_sampling_witness :
    ∃ s, (detect_person_in_video (some 0)
            (⟨true, 2, [[], [], []], true, false⟩ : DetectInput) "o.mp4" 1 2).1 =
          Except.ok s ∧
      s.total_frames = ([[], [], []] : List (List ℚ)).length ∧
      (detect_person_in_video (some 0)
          (⟨true, 2, [[], [], []], true, false⟩ : DetectInput) "o.mp4" 1 2).2.written =
        (List.range ([[], [], []] : List (List ℚ)).length).filter (fun i => i % 2 == 0) ∧
      ((detect_person_in_video (some 0)
          (⟨true, 2, [[], [], []], true, false⟩ : DetectInput) "o.mp4" 1 2).2.written).length =
        (([[], [], []] : List (List ℚ)).length + 2 - 1) / 2 :=
  C3_sampling 0 ⟨true, 2, [[], [], []], true, false⟩ "o.mp4" 1 2 (by omega) rfl (Or.inl rfl)

/-- C4: at most one snapshot is ever written per run; when some sampled
frame matches, exactly one snapshot write occurs, for the first matched
sampled frame in processing order, at the fixed snapshot path; later matches
never add to or change the snapshot writes, and the summary's
`detection_frame_path` is that path exactly when a match occurred. -/
theorem C4_snapshot_once (e : ℕ) (inp : DetectInput) (out : String) (tol : ℚ)
    (k : ℕ) (hv : inp.videoOpens = true) :
    (detect_person_in_video (some e) inp out tol k).2.snapshotWrites =
      (match firstMatchedSampledFrame tol k 0 inp.frames with
        | none => []
        | some i => [(snapshot_path out, i)]) ∧
    (detect_person_in_video (some e) inp out tol k).2.snapshotWrites.length ≤ 1 ∧
    (∀ s, (detect_person_in_video (some e) inp out tol k).1 = Except.ok s →
      s.detection_frame_path =
        (match firstMatchedSampledFrame tol k 0 inp.frames with
          | none => none
          | some _ => some (snapshot_path out))) := by
  have h := scanFrames_path_none out tol inp.fps k
    (openWriter inp.avc1Opens inp.mp4vOpens).2 inp.frames initScan rfl
  rw [detect_eq_of_open e inp out tol k hv]
  have hsw : (runScan inp out tol k).agg.snapshotWrites =
      (match firstMatchedSampledFrame tol k 0 inp.frames with
        | none => []
        | some i => [(snapshot_path out, i)]) := by
    rw [runScan]
    rw [h.1]
    rfl
  refine ⟨hsw, ?_, ?_⟩
  · rw [hsw]
    rcases firstMatchedSampledFrame tol k 0 inp.frames with _ | i <;> simp
  · intro s hs
    injection hs with h2
    rw [← h2]
    rw [runScan]
    exact h.2

/-- C4 witness: one matched sampled frame among three yields exactly one
snapshot write, for the first matching frame (index 1). -/
theorem C4_snapshot_once_witness :
    (detect_person_in_video (some 0)
        (⟨true, 1, [[5], [0], [0]], true, true⟩ : DetectInput) "o.mp4" 1 1).2.snapshotWrites =
      (match firstMatchedSampledFrame 1 1 0 ([[5], [0], [0]] : List (List ℚ)) with
        | none => []
        | some i => [(snapshot_path "o.mp4", i)]) ∧
    (detect_person_in_video (some 0)
        (⟨true, 1, [[5], [0], [0]], true, true⟩ : DetectInput) "o.mp4" 1 1).2.snapshotWrites.length ≤ 1 ∧
    (∀ s, (detect_person_in_video (some 0)
        (⟨true, 1, [[5], [0], [0]], true, true⟩ : DetectInput) "o.mp4" 1 1).1 = Except.ok s →
      s.detection_frame_path =
        (match firstMatchedSampledFrame 1 1 0 ([[5], [0], [0]] : List (List ℚ)) with
          | none => none
          | some _ => some (snapshot_path "o.mp4"))) :=
  C4_snapshot_once 0 ⟨true, 1, [[5], [0], [0]], true, true⟩ "o.mp4" 1 1 rfl

/-- C5: a face matches iff its embedding distance to the reference is at
most the tolerance; with tolerance 0, a face (of non-negative distance)
matches iff its distance is exactly 0. -/
theorem C5_match_rule (tolerance distance : ℚ) :
    (compare_faces tolerance distance = true ↔ distance ≤ tolerance) ∧
    (0 ≤ distance → (compare_faces 0 distance = true ↔ distance = 0)) := by
  constructor
  · simp [compare_faces]
  · intro h0
    simp only [compare_faces, decide_eq_true_eq]
    exact ⟨fun h => le_antisymm h h0, fun h => le_of_eq h⟩

/-- C5 witness: at distance 0 and tolerance 0 the face matches. -/
theorem C5_match_rule_witness : compare_faces 0 (0 : ℚ) = true :=
  ((C5_match_rule 0 0).2 le_rfl).mpr rfl

/-- C6: a reference image with zero detectable faces makes the endpoint fail
with the no-face reference error before any video I/O is attempted, with no
frame written to any output video and no snapshot written. -/
theorem C6_reference_no_face (inp : DetectInput) (out : String) (tol : ℚ)
    (k : ℕ) (refs : List ℕ) (h : refs = []) :
    (detect_endpoint refs inp out tol k).1 =
      Except.error "No face found in the person's image. Please use an image with a clear face." ∧
    (detect_endpoint refs inp out tol k).2.videoIOAttempted = false ∧
    (detect_endpoint refs inp out tol k).2.written = [] ∧
    (detect_endpoint refs inp out tol k).2.snapshotWrites = [] := by
  subst h
  simp [detect_endpoint, load_person_encoding, emptyTrace]

/-- C6 witness: concrete run of the endpoint with an empty reference
encoding list. -/
theorem C6_reference_no_face_witness :
    (detect_endpoint ([] : List ℕ) (⟨true, 1, [[0]], true, true⟩ : DetectInput)
        "o.mp4" 1 1).1 =
      Except.error "No face found in the person's image. Please use an image with a clear face." ∧
    (detect_endpoint ([] : List ℕ) (⟨true, 1, [[0]], true, true⟩ : DetectInput)
        "o.mp4" 1 1).2.videoIOAttempted = false ∧
    (detect_endpoint ([] : List ℕ) (⟨true, 1, [[0]], true, true⟩ : DetectInput)
        "o.mp4" 1 1).2.written = [] ∧
    (detect_endpoint ([] : List ℕ) (⟨true, 1, [[0]], true, true⟩ : DetectInput)
        "o.mp4" 1 1).2.snapshotWrites = [] :=
  C6_reference_no_face ⟨true, 1, [[0]], true, true⟩ "o.mp4" 1 1 [] rfl

/-- C7: the returned `detection_timestamps` list is non-decreasing (it is
produced in processing order), and each entry equals a matched sampled
frame's index divided by the video's fps. -/
theorem C7_timestamps (e : ℕ) (inp : DetectInput) (out : String) (tol : ℚ)
    (k : ℕ) (s : Summary)
    (hs : (detect_person_in_video (some e) inp out tol k).1 = Except.ok s) :
    List.Sorted (fun a b : ℚ => a ≤ b) s.detection_timestamps ∧
    ∀ t ∈ s.detection_timestamps, ∃ i, i < inp.frames.length ∧ (i % k == 0) = true ∧
      ((inp.frames.getD i []).any (fun d => compare_faces tol d)) = true ∧
      t = ((i : ℕ) : ℚ) / ((inp.fps : ℕ) : ℚ) := by
  by_cases hv : inp.videoOpens = true
  · rw [detect_eq_of_open e inp out tol k hv] at hs
    injection hs with h2
    have hts : s.detection_timestamps = timestampsSpec tol inp.fps k 0 inp.frames := by
      rw [← h2, runScan, scanFrames_timestamps]
      simp [initScan, initAgg]
    rw [hts]
    refine ⟨timestampsSpec_sorted tol inp.fps k inp.frames 0, ?_⟩
    intro t ht
    obtain ⟨j, hj, hmod, hany, hval⟩ := timestampsSpec_mem tol inp.fps k inp.frames 0 t ht
    exact ⟨j, hj, by simpa using hmod, hany, by simpa using hval⟩
  · have hvf : inp.videoOpens = false := by simpa using hv
    rw [detect_eq_of_closed e inp out tol k hvf] at hs
    exact absurd hs (by simp)

/-- C7 witness: a run with one matched frame produces the sorted timestamp
list `[0]` whose entry is index 0 divided by fps. -/
theorem C7_timestamps_witness :
    List.Sorted (fun a b : ℚ => a ≤ b)
      (Summary.mk 1 1 [0] "o.mp4" (some "o_detection_frame.jpg")).detection_timestamps ∧
    ∀ t ∈ (Summary.mk 1 1 [0] "o.mp4" (some "o_detection_frame.jpg")).detection_timestamps,
      ∃ i, i < ([[0]] : List (List ℚ)).length ∧ (i % 1 == 0) = true ∧
        ((([[0]] : List (List ℚ)).getD i []).any (fun d => compare_faces 1 d)) = true ∧
        t = ((i : ℕ) : ℚ) / (((2 : ℕ) : ℕ) : ℚ) :=
  C7_timestamps 0 ⟨true, 2, [[0]], true, true⟩ "o.mp4" 1 1
    (Summary.mk 1 1 [0] "o.mp4" (some "o_detection_frame.jpg"))
    (by norm_num [detect_person_in_video, runScan, scanFrames, scanFaces, stepFace,
        compare_faces, initScan, initAgg, openWriter]
        decide)

/-- C8: the scan is deterministic — two runs on identical inputs and
parameters (with the deterministic face capability baked into the frame
data) return identical detection timestamps and detected-frame counts. -/
theorem C8_deterministic (e : ℕ) (inp inp2 : DetectInput) (out out2 : String)
    (tol tol2 : ℚ) (k k2 : ℕ) (h1 : inp = inp2) (h2 : out = out2)
    (h3 : tol = tol2) (h4 : k = k2) (s s2 : Summary)
    (hs : (detect_person_in_video (some e) inp out tol k).1 = Except.ok s)
    (hs2 : (detect_person_in_video (some e) inp2 out2 tol2 k2).1 = Except.ok s2) :
    s.detection_timestamps = s2.detection_timestamps ∧
    s.detected_frames = s2.detected_frames := by
  subst h1; subst h2; subst h3; subst h4
  rw [hs] at hs2
  injection hs2 with h
  rw [h]
  exact ⟨rfl, rfl⟩

/-- C8 witness: two identical empty-video runs agree on both fields. -/
theorem C8_deterministic_witness :
    (Summary.mk 0 0 [] "o.mp4" none).detection_timestamps =
      (Summary.mk 0 0 [] "o.mp4" none).detection_timestamps ∧
    (Summary.mk 0 0 [] "o.mp4" none).detected_frames =
      (Summary.mk 0 0 [] "o.mp4" none).detected_frames :=
  C8_deterministic 0 ⟨true, 1, [], true, true⟩ ⟨true, 1, [], true, true⟩
    "o.mp4" "o.mp4" 1 1 1 1 rfl rfl rfl rfl
    (Summary.mk 0 0 [] "o.mp4" none) (Summary.mk 0 0 [] "o.mp4" none) rfl rfl

/-- C9: every increment of `detected_frames` is paired with exactly one
timestamp append, so throughout the scan (whenever the invariant holds on
entry, it holds on exit) and in every returned summary,
`detected_frames` equals the length of `detection_timestamps`. -/
theorem C9_count_matches_timestamps :
    (∀ (out : String) (tol : ℚ) (fps k : ℕ) (w : Bool) (frames : List (List ℚ))
        (st : ScanState),
      st.agg.detected_frames = st.agg.detection_timestamps.length →
        (scanFrames out tol fps k w frames st).agg.detected_frames =
          (scanFrames out tol fps k w frames st).agg.detection_timestamps.length) ∧
    (∀ (e : ℕ) (inp : DetectInput) (out : String) (tol : ℚ) (k : ℕ) (s : Summary),
      (detect_person_in_video (some e) inp out tol k).1 = Except.ok s →
        s.detected_frames = s.detection_timestamps.length) := by
  constructor
  · intro out tol fps k w frames st h
    rw [scanFrames_detected, scanFrames_timestamps, List.length_append, h]
  · intro e inp out tol k s hs
    by_cases hv : inp.videoOpens = true
    · rw [detect_eq_of_open e inp out tol k hv] at hs
      injection hs with h2
      rw [← h2]
      rw [runScan, scanFrames_detected, scanFrames_timestamps, List.length_append]
      rfl
    · have hvf : inp.videoOpens = false := by simpa using hv
      rw [detect_eq_of_closed e inp out tol k hvf] at hs
      exact absurd hs (by simp)

/-- C9 witness: the invariant applied to a concrete one-frame scan from the
initial state. -/
theorem C9_count_matches_timestamps_witness :
    (scanFrames "o.mp4" 1 1 1 true [[0]] initScan).agg.detected_frames =
      (scanFrames "o.mp4" 1 1 1 true [[0]] initScan).agg.detection_timestamps.length :=
  C9_count_matches_timestamps.1 "o.mp4" 1 1 1 true [[0]] initScan rfl

/-- C10: the snapshot path is the output video path with every occurrence of
`.mp4` replaced by `_detection_frame.jpg`; in particular, when the output
path contains no `.mp4` substring the snapshot path equals the output video
path itself (so the snapshot write targets the output video file). -/
theorem C10_snapshot_path_replace :
    (∀ s : String, occursIn ".mp4".toList s.toList = false → snapshot_path s = s) ∧
    snapshot_path "a.mp4b.mp4" = "a_detection_frame.jpgb_detection_frame.jpg" ∧
    snapshot_path "clip.avi" = "clip.avi" := by
  refine ⟨snapshot_path_of_no_mp4, by decide, by decide⟩

/-- C10 witness: a concrete output path without the `.mp4` substring maps to
itself. -/
theorem C10_snapshot_path_replace_witness : snapshot_path "output.avi" = "output.avi" :=
  C10_snapshot_path_replace.1 "output.avi" (by decide)

end LostAndFound
